import Mathlib

set_option maxHeartbeats 1000000

/-! # Shallow embedding of the rdbg debug-message system

Producer side (crate rdbg, src/rdbg/src/lib.rs): message framing and the
transport-manager loop.  Consumer side (crate rdbg_view,
src/rdbg_view/src/lib.rs): the byte-buffer decoder and the message iterator.

Strings are modelled as their UTF-8 byte sequences (lists of naturals,
each below 256); machine integers are naturals, reduced modulo 2 ^ 32 or
2 ^ 64 exactly where the source casts or where a fixed-width write occurs. -/

namespace Wire

/-- Big-endian byte list of a `u32` (the source writes `i.to_be_bytes()`;
each byte of the written word, most significant first). -/
def u32be (n : Nat) : List Nat :=
  [n / 2 ^ 24 % 256, n / 2 ^ 16 % 256, n / 2 ^ 8 % 256, n % 256]

/-- Big-endian byte list of a `u64`. -/
def u64be (n : Nat) : List Nat :=
  [n / 2 ^ 56 % 256, n / 2 ^ 48 % 256, n / 2 ^ 40 % 256, n / 2 ^ 32 % 256,
   n / 2 ^ 24 % 256, n / 2 ^ 16 % 256, n / 2 ^ 8 % 256, n % 256]

/-- Big-endian reading of a byte list (`uNN::from_be_bytes` in the source);
each entry is reduced to its byte value. -/
def beToNat (l : List Nat) : Nat :=
  l.foldl (fun acc b => acc * 256 + b % 256) 0

/-- A UTF-8 continuation byte, `10xxxxxx`. -/
def utf8Cont (b : Nat) : Bool :=
  128 ≤ b && b < 192

/-- UTF-8 validity of a byte sequence, as checked by `std::str::from_utf8`
in `ByteBuffer::read_str`: the standard table of well-formed sequences
(rejecting overlong encodings, surrogates and values above U+10FFFF). -/
def isUtf8 : List Nat → Bool
  | [] => true
  | b :: rest =>
    if b < 128 then isUtf8 rest
    else if 194 ≤ b && b ≤ 223 then
      match rest with
      | c1 :: r => utf8Cont c1 && isUtf8 r
      | [] => false
    else if b = 224 then
      match rest with
      | c1 :: c2 :: r => (160 ≤ c1 && c1 < 192) && utf8Cont c2 && isUtf8 r
      | _ => false
    else if (225 ≤ b && b ≤ 236) || b = 238 || b = 239 then
      match rest with
      | c1 :: c2 :: r => utf8Cont c1 && utf8Cont c2 && isUtf8 r
      | _ => false
    else if b = 237 then
      match rest with
      | c1 :: c2 :: r => (128 ≤ c1 && c1 < 160) && utf8Cont c2 && isUtf8 r
      | _ => false
    else if b = 240 then
      match rest with
      | c1 :: c2 :: c3 :: r =>
        (144 ≤ c1 && c1 < 192) && utf8Cont c2 && utf8Cont c3 && isUtf8 r
      | _ => false
    else if 241 ≤ b && b ≤ 243 then
      match rest with
      | c1 :: c2 :: c3 :: r =>
        utf8Cont c1 && utf8Cont c2 && utf8Cont c3 && isUtf8 r
      | _ => false
    else if b = 244 then
      match rest with
      | c1 :: c2 :: c3 :: r =>
        (128 ≤ c1 && c1 < 144) && utf8Cont c2 && utf8Cont c3 && isUtf8 r
      | _ => false
    else false

end Wire

/-! ## Producer crate rdbg (src/rdbg/src/lib.rs) -/

namespace Rdbg

open Wire

/-- `LEN_FIELD_SIZE = size_of::<u32>()`. -/
def LEN_FIELD_SIZE : Nat := 4

/-- The payload of a producer message: `MsgPayload` in src/rdbg/src/lib.rs.
`Message` carries a formatted string, `Values` an ordered list of
name/value pairs (strings as byte sequences). -/
inductive MsgPayload where
  | Message (msg : List Nat)
  | Values (values : List (List Nat × List Nat))

/-- `required_str_capacity`: byte length of the string plus the length field. -/
def required_str_capacity (s : List Nat) : Nat :=
  s.length + LEN_FIELD_SIZE

/-- `MsgPayload::required_capacity`: encoded payload size, including the
one-byte tag (`size_of::<MsgPayloadVal>() = 1`). -/
def MsgPayload.required_capacity : MsgPayload → Nat
  | .Message msg => required_str_capacity msg + 1
  | .Values values =>
    (values.foldl
      (fun acc kv => acc + required_str_capacity kv.1 + required_str_capacity kv.2)
      LEN_FIELD_SIZE) + 1

/-- `Message::write_u8`: append the byte. -/
def write_u8 (i : Nat) : List Nat := [i % 256]

/-- `Message::write_str`: `u32` byte length (cast `s.len() as u32`) followed
by the raw bytes of the string. -/
def write_str (s : List Nat) : List Nat :=
  u32be s.length ++ s

/-- `Message::write_payload`: tag byte (1 for `Message`, 2 for `Values`),
then the body; for `Values` a `u32` element count followed by the
name/value pairs in order. -/
def write_payload : MsgPayload → List Nat
  | .Message msg => write_u8 1 ++ write_str msg
  | .Values values =>
    write_u8 2 ++ u32be values.length ++
      values.flatMap (fun kv => write_str kv.1 ++ write_str kv.2)

/-- `Message::new` (src/rdbg/src/lib.rs lines 201-223).  The ambient reads
`current_time()` and `current_thread()` are passed as the explicit
arguments `time` and `thread_id`; everything else follows the source:
`len` counts the length field itself, the time, both length-prefixed
strings, the line and the payload, and the first field written is
`len as u32`. -/
def Message.new (time : Nat) (thread_id : List Nat) (filename : List Nat)
    (line : Nat) (payload : MsgPayload) : List Nat :=
  let len := LEN_FIELD_SIZE
    + 8
    + required_str_capacity thread_id
    + required_str_capacity filename
    + 4
    + payload.required_capacity
  u32be len ++ u64be time ++ write_str thread_id ++ write_str filename ++
    u32be line ++ write_payload payload

end Rdbg

/-! ## Consumer crate rdbg_view (src/rdbg_view/src/lib.rs) -/

namespace RdbgView

open Wire

/-- The decoder error taxonomy (`Error` in src/rdbg_view/src/lib.rs); the
`Utf8Error` detail carried by `BadUtf8` is dropped. -/
inductive Error where
  | BadVersion
  | BadUtf8
  | CorruptMsg
deriving DecidableEq

/-- `ByteBuffer::as_slice`: succeed with the next `len` bytes exactly when
`idx + len <= buffer.len()`, i.e. when `len` bytes remain; otherwise
`CorruptMsg`.  The buffer-and-index pair is modelled as the list of bytes
not yet consumed, so the result is the slice together with the rest. -/
def as_slice (len : Nat) (b : List Nat) : Except Error (List Nat × List Nat) :=
  if len ≤ b.length then .ok (b.take len, b.drop len) else .error .CorruptMsg

/-- `ByteBuffer::read_u8`. -/
def read_u8 (b : List Nat) : Except Error (Nat × List Nat) := do
  let (s, b) ← as_slice 1 b
  .ok (beToNat s, b)

/-- `ByteBuffer::read_u32`. -/
def read_u32 (b : List Nat) : Except Error (Nat × List Nat) := do
  let (s, b) ← as_slice 4 b
  .ok (beToNat s, b)

/-- `ByteBuffer::read_u64`. -/
def read_u64 (b : List Nat) : Except Error (Nat × List Nat) := do
  let (s, b) ← as_slice 8 b
  .ok (beToNat s, b)

/-- `ByteBuffer::read_str`: a `u32` length, that many bytes, then UTF-8
validation (`BadUtf8` on failure).  The decoded string is its byte
sequence. -/
def read_str (b : List Nat) : Except Error (List Nat × List Nat) := do
  let (len, b) ← read_u32 b
  let (s, b) ← as_slice len b
  if isUtf8 s then .ok (s, b) else .error .BadUtf8

/-- Consumer-side payload (`MsgPayload` in src/rdbg_view/src/lib.rs). -/
inductive MsgPayload where
  | Message (s : List Nat)
  | Values (values : List (List Nat × List Nat))
deriving DecidableEq

/-- Consumer-side `Message` struct. -/
structure Message where
  time : Nat
  thread_id : List Nat
  filename : List Nat
  line : Nat
  payload : MsgPayload
deriving DecidableEq

/-- The `for _ in 0..len` loop of `MsgPayload::from_buffer` for the
`Values` arm: read `n` name/value pairs in order. -/
def read_values : Nat → List Nat → Except Error (List (List Nat × List Nat) × List Nat)
  | 0, b => .ok ([], b)
  | n + 1, b => do
    let (name, b) ← read_str b
    let (val, b) ← read_str b
    let (rest, b) ← read_values n b
    .ok ((name, val) :: rest, b)

/-- `MsgPayload::from_buffer` composed with `MsgPayloadVal::try_from`
(src/rdbg_view/src/lib.rs lines 34-44 and 122-143): a tag byte that is
neither 1 nor 2 is `CorruptMsg`. -/
def MsgPayload.from_buffer (b : List Nat) : Except Error (MsgPayload × List Nat) := do
  let (tag, b) ← read_u8 b
  match tag with
  | 1 => do
    let (s, b) ← read_str b
    .ok (MsgPayload.Message s, b)
  | 2 => do
    let (len, b) ← read_u32 b
    let (values, b) ← read_values len b
    .ok (MsgPayload.Values values, b)
  | _ => .error .CorruptMsg

/-- `Message::from_buffer` (src/rdbg_view/src/lib.rs lines 165-180): the
fields in wire order; whatever part of the buffer remains afterwards is
returned unexamined (the source never checks that the buffer was fully
consumed). -/
def Message.from_buffer (b : List Nat) : Except Error (Message × List Nat) := do
  let (time, b) ← read_u64 b
  let (thread_id, b) ← read_str b
  let (filename, b) ← read_str b
  let (line, b) ← read_u32 b
  let (payload, b) ← MsgPayload.from_buffer b
  .ok ({ time, thread_id, filename, line, payload }, b)

/-- How `MsgIterator::next` uses `Message::from_buffer`: only the decoded
message is kept, the unconsumed remainder of the buffer is discarded. -/
def decode_frame (b : List Nat) : Except Error Message :=
  (Message.from_buffer b).map (fun r => r.1)

/-- The element type produced by `MsgIterator` (`Event` in
src/rdbg_view/src/lib.rs); the socket address payloads are dropped, since
the iterator only ever reports its single configured address. -/
inductive EventV where
  | Connected
  | Disconnected
  | Message (m : Message)
deriving DecidableEq

/-- One pass of the reconnect loop's environment: a connection attempt
either fails outright or yields a stream whose incoming bytes are the
given list (a read of `n` bytes succeeds exactly when `n` bytes are
left, as `read_exact` does on a finite stream). -/
inductive Attempt where
  | fail
  | conn (bytes : List Nat)

/-- The `None` (disconnected) arm of `MsgIterator::next`
(src/rdbg_view/src/lib.rs lines 348-364), run against a finite list of
connection attempts; `none` means the loop is still retrying when the
attempts run out.  On a successful connect one handshake byte is read:
if the read fails the loop retries, if the byte equals
`WIRE_PROTOCOL_VERSION = 1` the stream is stored and `Connected` is
returned, otherwise `BadVersion` is returned and the stream is dropped. -/
def next_disconnected :
    List Attempt → Option (Option (List Nat) × Except Error EventV)
  | [] => none
  | .fail :: rest => next_disconnected rest
  | .conn bytes :: rest =>
    match bytes with
    | [] => next_disconnected rest
    | b :: tail =>
      if b % 256 = 1 then some (some tail, .ok .Connected)
      else some (none, .error .BadVersion)

/-- The `Some stream` (connected) arm of `MsgIterator::next`
(src/rdbg_view/src/lib.rs lines 324-347): read a 4-byte length, then that
many bytes, then decode; a failed read yields `Disconnected` with the
stream dropped; a decode error drops the stream and surfaces the error;
on success the stream is kept. -/
def next_connected (bytes : List Nat) : Option (List Nat) × Except Error EventV :=
  if 4 ≤ bytes.length then
    let len := beToNat (bytes.take 4)
    let rest := bytes.drop 4
    if len ≤ rest.length then
      match Message.from_buffer (rest.take len) with
      | .ok (m, _) => (some (rest.drop len), .ok (.Message m))
      | .error e => (none, .error e)
    else (none, .ok .Disconnected)
  else (none, .ok .Disconnected)

/-- `MsgIterator::next`: dispatch on the stored stream.  The state is the
remaining bytes of the live stream (`none` = disconnected); the result is
the new state and the item, or `none` when the reconnect loop is still
spinning at the end of the attempt list. -/
def mi_next (st : Option (List Nat)) (attempts : List Attempt) :
    Option (Option (List Nat) × Except Error EventV) :=
  match st with
  | some bytes => some (next_connected bytes)
  | none => next_disconnected attempts

end RdbgView

/-! ## Producer transport manager and registry (src/rdbg/src/lib.rs) -/

namespace Rdbg

/-- `Event` in src/rdbg/src/lib.rs: what travels through the bounded
channel from `send_message` / `flush` to the manager thread.  A message
is its frame byte list. -/
inductive Ev where
  | NewMessage (m : List Nat)
  | Flush
deriving DecidableEq

/-- Observable actions of the manager thread on one connection: a frame
fully written to the stream, or a flush marker signalled
(`Flushed::flushed`). -/
inductive Out where
  | wrote (m : List Nat)
  | flushed
deriving DecidableEq

/-- The message loop of `process_stream` (src/rdbg/src/lib.rs lines
465-496) on one accepted connection.  `curr` is `curr_msg` (the pending
frame), `evs` the events the channel will deliver in FIFO order, `ws` the
outcomes of the successive `write_to_stream` calls (`true` = the whole
frame was written, `false` = the write failed partway).  When a write
fails the loop breaks with the frame still pending; when the events are
exhausted the observation window ends (in the source, `recv` would
block).  Returns the pending frame, the undelivered events and the trace
of actions in order. -/
def run_conn :
    Option (List Nat) → List Ev → List Bool →
      Option (List Nat) × List Ev × List Out
  | some m, evs, [] => (some m, evs, [])
  | some m, evs, w :: ws =>
    if w then
      let r := run_conn none evs ws
      (r.1, r.2.1, .wrote m :: r.2.2)
    else (some m, evs, [])
  | none, [], _ => (none, [], [])
  | none, .NewMessage m :: evs, ws => run_conn (some m) evs ws
  | none, .Flush :: evs, ws =>
    let r := run_conn none evs ws
    (r.1, r.2.1, .flushed :: r.2.2)
termination_by c evs ws => evs.length + ws.length

/-- `process_stream` (src/rdbg/src/lib.rs lines 454-499): first the
handshake byte is written; if that fails the function returns at once
with `curr_msg` untouched and nothing done, otherwise the message loop
runs. -/
def process_stream (hs : Bool) (curr : Option (List Nat)) (evs : List Ev)
    (ws : List Bool) : Option (List Nat) × List Ev × List Out :=
  if hs then run_conn curr evs ws else (curr, evs, [])

/-- One accepted connection of the `handle_connections` loop: the
handshake write outcome and the frame-write outcomes. -/
structure Conn where
  hs : Bool
  ws : List Bool

/-- The accept loop of `handle_connections` (src/rdbg/src/lib.rs lines
424-449): process each accepted connection in turn, carrying the pending
frame and the undelivered events across connections and concatenating
the traces. -/
def run_manager :
    Option (List Nat) → List Ev → List Conn →
      Option (List Nat) × List Ev × List Out
  | curr, evs, [] => (curr, evs, [])
  | curr, evs, cn :: cns =>
    let r := process_stream cn.hs curr evs cn.ws
    let r2 := run_manager r.1 r.2.1 cns
    (r2.1, r2.2.1, r.2.2 ++ r2.2.2)

/-- Frames held in the `curr_msg` slot, as a list. -/
def optMsgs : Option (List Nat) → List (List Nat)
  | none => []
  | some m => [m]

/-- The frames carried by a list of channel events, in order. -/
def evMsgs (evs : List Ev) : List (List Nat) :=
  evs.filterMap (fun e => match e with
    | .NewMessage m => some m
    | .Flush => none)

/-- The frames written in a trace, in order. -/
def outWrites (tr : List Out) : List (List Nat) :=
  tr.filterMap (fun o => match o with
    | .wrote m => some m
    | .flushed => none)

/-- Whether a trace entry is a frame write (rather than a flush signal). -/
def isWrote : Out → Bool
  | .wrote _ => true
  | .flushed => false

/-- `RemoteDebug::from_port` (src/rdbg/src/lib.rs lines 335-348) acting on
the global registry `REMOTE_DEBUG` (line 21).  The registry is a single
`Option`: the port of the one manager created so far, if any.  The whole
body runs under the registry mutex, so calls are serialized; each call is
one atomic step here.  Returns the port of the manager whose handle the
caller receives, and the new registry state. -/
def from_port (port : Nat) (reg : Option Nat) : Nat × Option Nat :=
  match reg with
  | some p => (p, some p)
  | none => (port, some port)

/-- A sequence of `from_port` requests against the registry: the list of
handles returned (identified by their manager's port) and the final
registry state. -/
def run_ports : List Nat → Option Nat → List Nat × Option Nat
  | [], reg => ([], reg)
  | p :: ps, reg =>
    let r := from_port p reg
    let rest := run_ports ps r.2
    (r.1 :: rest.1, rest.2)

/-- `parse_thread_id` needs the split of a string on the characters `(`
and `)` (`thread_id.split(&['(', ')'])` in the source).  A character is a
paren separator exactly when it is one of the two. -/
def isParen (c : Char) : Bool :=
  c = '(' || c = ')'

/-- Rust `str::split` on the two paren characters: the (always nonempty)
list of pieces between separators. -/
def splitParens : List Char → List (List Char)
  | [] => [[]]
  | c :: rest =>
    if isParen c then [] :: splitParens rest
    else
      match splitParens rest with
      | p :: ps => (c :: p) :: ps
      | [] => [[c]]

/-- `THREAD_ID_PREFIX = "ThreadId"`. -/
def THREAD_ID_PREFIX : List Char := "ThreadId".data

/-- `parse_thread_id` (src/rdbg/src/lib.rs lines 113-125): take the split
iterator's pieces in order; if the first piece is `ThreadId`, the second
piece exists and the third piece is the empty string, return the second
piece; in every other case return the input unchanged. -/
def parse_thread_id (s : List Char) : List Char :=
  match splitParens s with
  | [] => s
  | p0 :: rest =>
    if p0 = THREAD_ID_PREFIX then
      match rest with
      | p1 :: p2 :: _ => if p2 = [] then p1 else s
      | _ => s
    else s

end Rdbg

/-- The producer's payload read back on the consumer side: the two enums
have the same shape and the codec is expected to carry each arm across
unchanged. -/
def payloadView : Rdbg.MsgPayload → RdbgView.MsgPayload
  | .Message s => .Message s
  | .Values vs => .Values vs

/-- Constructibility of a producer payload: every string is a UTF-8 byte
sequence (as any Rust `String` is) and fits the `u32` length fields the
codec writes. -/
def Rdbg.MsgPayload.wf : Rdbg.MsgPayload → Bool
  | .Message s => decide (s.length < 2 ^ 32) && Wire.isUtf8 s
  | .Values vs =>
    decide (vs.length < 2 ^ 32) &&
      vs.all fun kv =>
        decide (kv.1.length < 2 ^ 32) && decide (kv.2.length < 2 ^ 32) &&
          Wire.isUtf8 kv.1 && Wire.isUtf8 kv.2

/-- Constructibility of a whole producer message: the captured time is a
`u64`, the line a `u32`, and each string field is a UTF-8 byte sequence
fitting its `u32` length field. -/
def wfInputs (time : Nat) (tid fn : List Nat) (line : Nat)
    (p : Rdbg.MsgPayload) : Bool :=
  decide (time < 2 ^ 64) && decide (line < 2 ^ 32) &&
    decide (tid.length < 2 ^ 32) && Wire.isUtf8 tid &&
    decide (fn.length < 2 ^ 32) && Wire.isUtf8 fn && p.wf

/-! ## Codec lemmas -/

/-- Reduction of the `Except` monad's bind on a success value. -/
@[simp]
theorem ebind_ok {ε α β : Type} (a : α) (f : α → Except ε β) :
    ((Except.ok a : Except ε α) >>= f) = f a := rfl

/-- Reduction of the `Except` monad's bind on an error value. -/
@[simp]
theorem ebind_error {ε α β : Type} (e : ε) (f : α → Except ε β) :
    ((Except.error e : Except ε α) >>= f) = Except.error e := rfl

/-- Reduction of `Except.map` on a success value. -/
@[simp]
theorem emap_ok {ε α β : Type} (a : α) (f : α → β) :
    Except.map f (Except.ok a : Except ε α) = Except.ok (f a) := rfl

namespace Wire


theorem u32be_length (n : Nat) : (u32be n).length = 4 := rfl

theorem u64be_length (n : Nat) : (u64be n).length = 8 := rfl

theorem beToNat_foldl (init : Nat) (l : List Nat) :
    l.foldl (fun acc b => acc * 256 + b % 256) init =
      init * 256 ^ l.length + beToNat l := by
  induction l generalizing init with
  | nil => simp [beToNat]
  | cons b l ih =>
    have hb : beToNat (b :: l) = (b % 256) * 256 ^ l.length + beToNat l := by
      have hc : beToNat (b :: l) =
          List.foldl (fun acc x => acc * 256 + x % 256) (0 * 256 + b % 256) l := rfl
      rw [hc, ih]
      ring
    simp only [List.foldl_cons, List.length_cons]
    rw [ih (init * 256 + b % 256), hb]
    ring

theorem beToNat_append (a b : List Nat) :
    beToNat (a ++ b) = beToNat a * 256 ^ b.length + beToNat b := by
  simp only [beToNat, List.foldl_append]
  exact beToNat_foldl _ b

theorem beToNat_u32be (n : Nat) : beToNat (u32be n) = n % 2 ^ 32 := by
  simp only [beToNat, u32be, List.foldl_cons, List.foldl_nil]
  omega

theorem u64be_split (n : Nat) :
    u64be n = u32be (n / 2 ^ 32) ++ u32be n := by
  simp only [u64be, u32be, List.cons_append, List.nil_append, List.cons.injEq,
    and_true]
  omega

theorem beToNat_u64be (n : Nat) : beToNat (u64be n) = n % 2 ^ 64 := by
  rw [u64be_split, beToNat_append, beToNat_u32be, beToNat_u32be, u32be_length]
  omega

end Wire

namespace RdbgView

open Wire

theorem as_slice_append (l rest : List Nat) :
    as_slice l.length (l ++ rest) = .ok (l, rest) := by
  simp [as_slice, List.take_left, List.drop_left]

theorem read_u32_append (n : Nat) (rest : List Nat) :
    read_u32 (u32be n ++ rest) = .ok (n % 2 ^ 32, rest) := by
  unfold read_u32
  rw [show (4 : Nat) = (u32be n).length from rfl, as_slice_append]
  simp [beToNat_u32be]

theorem read_u64_append (n : Nat) (rest : List Nat) :
    read_u64 (u64be n ++ rest) = .ok (n % 2 ^ 64, rest) := by
  unfold read_u64
  rw [show (8 : Nat) = (u64be n).length from rfl, as_slice_append]
  simp [beToNat_u64be]

theorem read_u8_cons (b : Nat) (rest : List Nat) :
    read_u8 (b :: rest) = .ok (b % 256, rest) := by
  simp [read_u8, as_slice, beToNat]

theorem read_str_append (s rest : List Nat) (hl : s.length < 2 ^ 32)
    (hu : isUtf8 s = true) :
    read_str (Rdbg.write_str s ++ rest) = .ok (s, rest) := by
  unfold read_str Rdbg.write_str
  rw [List.append_assoc, read_u32_append]
  simp only [ebind_ok, Nat.mod_eq_of_lt hl]
  rw [show as_slice s.length (s ++ rest) = .ok (s, rest) from as_slice_append s rest]
  simp [hu]

theorem read_values_append (vs : List (List Nat × List Nat)) (rest : List Nat)
    (h : ∀ kv ∈ vs, kv.1.length < 2 ^ 32 ∧ kv.2.length < 2 ^ 32 ∧
      isUtf8 kv.1 = true ∧ isUtf8 kv.2 = true) :
    read_values vs.length
        ((vs.flatMap fun kv => Rdbg.write_str kv.1 ++ Rdbg.write_str kv.2) ++ rest) =
      .ok (vs, rest) := by
  induction vs with
  | nil => simp [read_values]
  | cons kv vs ih =>
    have hkv := h kv (by simp)
    have hrest : ∀ kv ∈ vs, kv.1.length < 2 ^ 32 ∧ kv.2.length < 2 ^ 32 ∧
        isUtf8 kv.1 = true ∧ isUtf8 kv.2 = true := by
      intro x hx
      exact h x (by simp [hx])
    simp only [List.flatMap_cons, List.length_cons, List.append_assoc]
    unfold read_values
    rw [read_str_append kv.1 _ hkv.1 hkv.2.2.1]
    simp only [ebind_ok]
    rw [read_str_append kv.2 _ hkv.2.1 hkv.2.2.2]
    simp only [ebind_ok]
    rw [ih hrest]
    simp

theorem payload_from_buffer_append (p : Rdbg.MsgPayload) (rest : List Nat)
    (h : p.wf = true) :
    MsgPayload.from_buffer (Rdbg.write_payload p ++ rest) =
      .ok (payloadView p, rest) := by
  cases p with
  | Message s =>
    simp only [Rdbg.MsgPayload.wf, Bool.and_eq_true, decide_eq_true_eq] at h
    unfold MsgPayload.from_buffer Rdbg.write_payload Rdbg.write_u8
    simp only [List.cons_append, List.nil_append, read_u8_cons, ebind_ok]
    rw [read_str_append s rest h.1 h.2]
    simp [payloadView]
  | Values vs =>
    simp only [Rdbg.MsgPayload.wf, Bool.and_eq_true, decide_eq_true_eq,
      List.all_eq_true] at h
    have hvs : ∀ kv ∈ vs, kv.1.length < 2 ^ 32 ∧ kv.2.length < 2 ^ 32 ∧
        isUtf8 kv.1 = true ∧ isUtf8 kv.2 = true := by
      intro kv hkv
      have hx := h.2 kv hkv
      simp only [Bool.and_eq_true, decide_eq_true_eq] at hx
      exact ⟨hx.1.1.1, hx.1.1.2, hx.1.2, hx.2⟩
    unfold MsgPayload.from_buffer Rdbg.write_payload Rdbg.write_u8
    simp only [List.cons_append, List.nil_append, read_u8_cons, List.append_assoc,
      ebind_ok]
    rw [read_u32_append]
    simp only [ebind_ok, Nat.mod_eq_of_lt h.1]
    rw [read_values_append vs rest hvs]
    simp [payloadView]

end RdbgView

/-- After stripping the 4-byte length prefix, the frame built by
`Message::new` is exactly the concatenation of its encoded fields. -/
theorem message_new_drop4 (time : Nat) (tid fn : List Nat) (line : Nat)
    (p : Rdbg.MsgPayload) :
    (Rdbg.Message.new time tid fn line p).drop 4 =
      Wire.u64be time ++ (Rdbg.write_str tid ++ (Rdbg.write_str fn ++
        (Wire.u32be line ++ Rdbg.write_payload p))) := by
  show List.drop 4 (Wire.u32be (Rdbg.LEN_FIELD_SIZE + 8 +
      Rdbg.required_str_capacity tid + Rdbg.required_str_capacity fn + 4 +
      (Rdbg.MsgPayload.required_capacity p)) ++ Wire.u64be time ++
      Rdbg.write_str tid ++ Rdbg.write_str fn ++ Wire.u32be line ++
      Rdbg.write_payload p) = _
  simp only [List.append_assoc]
  exact List.drop_left' rfl

/-- C2: for every constructible message (string fields are UTF-8 byte
sequences fitting their `u32` length fields, the captured time a `u64`,
the line a `u32`), decoding the bytes after the `u32` length prefix with
the consumer's `Message::from_buffer` succeeds, consumes the whole body,
and reproduces every field exactly: time, thread id, filename, line,
payload tag, and for key/value payloads the pairs in the same order with
the same contents. -/
theorem c2_encode_decode_roundtrip (time : Nat) (tid fn : List Nat)
    (line : Nat) (p : Rdbg.MsgPayload)
    (h : wfInputs time tid fn line p = true) :
    RdbgView.Message.from_buffer ((Rdbg.Message.new time tid fn line p).drop 4) =
      .ok (⟨time, tid, fn, line, payloadView p⟩, []) := by
  simp only [wfInputs, Bool.and_eq_true, decide_eq_true_eq] at h
  obtain ⟨⟨⟨⟨⟨⟨htime, hline⟩, htl⟩, htu⟩, hfl⟩, hfu⟩, hp⟩ := h
  rw [message_new_drop4]
  unfold RdbgView.Message.from_buffer
  rw [RdbgView.read_u64_append]
  simp only [ebind_ok, Nat.mod_eq_of_lt htime]
  rw [RdbgView.read_str_append tid _ htl htu]
  simp only [ebind_ok]
  rw [RdbgView.read_str_append fn _ hfl hfu]
  simp only [ebind_ok]
  rw [RdbgView.read_u32_append]
  simp only [ebind_ok, Nat.mod_eq_of_lt hline]
  rw [show Rdbg.write_payload p = Rdbg.write_payload p ++ [] from
    (List.append_nil _).symm, RdbgView.payload_from_buffer_append p [] hp]
  simp

/-- C2 witness: a concrete constructible message (time 5, thread id `1`,
filename `a`, line 7, text payload `hi`) decodes back to itself with the
body fully consumed. -/
theorem c2_witness :
    RdbgView.Message.from_buffer
        ((Rdbg.Message.new 5 [49] [97] 7 (.Message [104, 105])).drop 4) =
      .ok (⟨5, [49], [97], 7, .Message [104, 105]⟩, []) :=
  c2_encode_decode_roundtrip 5 [49] [97] 7 (.Message [104, 105]) (by decide)

/-- C1: the `u32 total_length` written by `Message::new` does NOT equal the
number of encoded bytes that follow it — the source includes
`LEN_FIELD_SIZE` (the prefix itself) in `len` before writing it.  At the
concrete message (time 0, thread id `1`, filename `a.rs`, line 10, text
payload `hi`) the written prefix decodes to 36 while only 32 bytes follow
it, and a decoder that reads exactly `total_length` bytes after the
prefix (as `MsgIterator::next` does) overruns the frame by 4 bytes: after
one pull on a stream of two such frames back to back, the retained
stream is the second frame with its own length prefix already consumed. -/
theorem c1_total_length_counts_prefix :
    Wire.beToNat ((Rdbg.Message.new 0 [49] [97, 46, 114, 115] 10
        (.Message [104, 105])).take 4) = 36 ∧
    ((Rdbg.Message.new 0 [49] [97, 46, 114, 115] 10
        (.Message [104, 105])).drop 4).length = 32 ∧
    (RdbgView.next_connected
        (Rdbg.Message.new 0 [49] [97, 46, 114, 115] 10 (.Message [104, 105]) ++
          Rdbg.Message.new 0 [49] [97, 46, 114, 115] 10 (.Message [104, 105]))).1 =
      some ((Rdbg.Message.new 0 [49] [97, 46, 114, 115] 10
        (.Message [104, 105])).drop 4) := by
  refine ⟨by decide, by decide, by decide⟩

/-! ## Decoder safety: every successful parse consumes only in-buffer bytes -/

namespace RdbgView

theorem as_slice_suffix {len : Nat} {b s r : List Nat}
    (h : as_slice len b = .ok (s, r)) : r <:+ b := by
  unfold as_slice at h
  split at h
  · simp only [Except.ok.injEq, Prod.mk.injEq] at h
    rw [← h.2]
    exact List.drop_suffix _ _
  · simp at h

theorem read_u8_suffix {b : List Nat} {v : Nat} {r : List Nat}
    (h : read_u8 b = .ok (v, r)) : r <:+ b := by
  unfold read_u8 at h
  cases hs : as_slice 1 b with
  | ok p =>
    obtain ⟨s1, r1⟩ := p
    rw [hs] at h
    simp only [ebind_ok, Except.ok.injEq, Prod.mk.injEq] at h
    rw [← h.2]
    exact as_slice_suffix hs
  | error e =>
    rw [hs] at h
    simp at h

theorem read_u32_suffix {b : List Nat} {v : Nat} {r : List Nat}
    (h : read_u32 b = .ok (v, r)) : r <:+ b := by
  unfold read_u32 at h
  cases hs : as_slice 4 b with
  | ok p =>
    obtain ⟨s1, r1⟩ := p
    rw [hs] at h
    simp only [ebind_ok, Except.ok.injEq, Prod.mk.injEq] at h
    rw [← h.2]
    exact as_slice_suffix hs
  | error e =>
    rw [hs] at h
    simp at h

theorem read_u64_suffix {b : List Nat} {v : Nat} {r : List Nat}
    (h : read_u64 b = .ok (v, r)) : r <:+ b := by
  unfold read_u64 at h
  cases hs : as_slice 8 b with
  | ok p =>
    obtain ⟨s1, r1⟩ := p
    rw [hs] at h
    simp only [ebind_ok, Except.ok.injEq, Prod.mk.injEq] at h
    rw [← h.2]
    exact as_slice_suffix hs
  | error e =>
    rw [hs] at h
    simp at h

theorem read_str_suffix {b s r : List Nat}
    (h : read_str b = .ok (s, r)) : r <:+ b := by
  unfold read_str at h
  cases h32 : read_u32 b with
  | ok p =>
    obtain ⟨len, b1⟩ := p
    rw [h32] at h
    simp only [ebind_ok] at h
    cases hs : as_slice len b1 with
    | ok q =>
      obtain ⟨s1, r1⟩ := q
      rw [hs] at h
      simp only [ebind_ok] at h
      split at h
      · simp only [Except.ok.injEq, Prod.mk.injEq] at h
        rw [← h.2]
        exact (as_slice_suffix hs).trans (read_u32_suffix h32)
      · simp at h
    | error e =>
      rw [hs] at h
      simp at h
  | error e =>
    rw [h32] at h
    simp at h

theorem read_values_suffix {n : Nat} {b : List Nat}
    {vs : List (List Nat × List Nat)} {r : List Nat}
    (h : read_values n b = .ok (vs, r)) : r <:+ b := by
  induction n generalizing b vs r with
  | zero =>
    unfold read_values at h
    simp only [Except.ok.injEq, Prod.mk.injEq] at h
    rw [← h.2]
  | succ n ih =>
    unfold read_values at h
    cases h1 : read_str b with
    | ok p =>
      obtain ⟨name, b1⟩ := p
      rw [h1] at h
      simp only [ebind_ok] at h
      cases h2 : read_str b1 with
      | ok q =>
        obtain ⟨val, b2⟩ := q
        rw [h2] at h
        simp only [ebind_ok] at h
        cases h3 : read_values n b2 with
        | ok w =>
          obtain ⟨rest, b3⟩ := w
          rw [h3] at h
          simp only [ebind_ok, Except.ok.injEq, Prod.mk.injEq] at h
          rw [← h.2]
          exact ((ih h3).trans (read_str_suffix h2)).trans (read_str_suffix h1)
        | error e =>
          rw [h3] at h
          simp at h
      | error e =>
        rw [h2] at h
        simp at h
    | error e =>
      rw [h1] at h
      simp at h

theorem payload_from_buffer_suffix {b : List Nat} {p : MsgPayload} {r : List Nat}
    (h : MsgPayload.from_buffer b = .ok (p, r)) : r <:+ b := by
  unfold MsgPayload.from_buffer at h
  cases h8 : read_u8 b with
  | ok q =>
    obtain ⟨tag, b1⟩ := q
    rw [h8] at h
    simp only [ebind_ok] at h
    have hb1 : b1 <:+ b := read_u8_suffix h8
    match tag with
    | 0 => simp at h
    | 1 =>
      cases h1 : read_str b1 with
      | ok w =>
        obtain ⟨s, b2⟩ := w
        rw [h1] at h
        simp only [ebind_ok, Except.ok.injEq, Prod.mk.injEq] at h
        rw [← h.2]
        exact (read_str_suffix h1).trans hb1
      | error e =>
        rw [h1] at h
        simp at h
    | 2 =>
      cases h1 : read_u32 b1 with
      | ok w =>
        obtain ⟨len, b2⟩ := w
        rw [h1] at h
        simp only [ebind_ok] at h
        cases h2 : read_values len b2 with
        | ok w2 =>
          obtain ⟨vs, b3⟩ := w2
          rw [h2] at h
          simp only [ebind_ok, Except.ok.injEq, Prod.mk.injEq] at h
          rw [← h.2]
          exact ((read_values_suffix h2).trans (read_u32_suffix h1)).trans hb1
        | error e =>
          rw [h2] at h
          simp at h
      | error e =>
        rw [h1] at h
        simp at h
    | (n + 3) => simp at h
  | error e =>
    rw [h8] at h
    simp at h

theorem message_from_buffer_suffix {b : List Nat} {m : Message} {r : List Nat}
    (h : Message.from_buffer b = .ok (m, r)) : r <:+ b := by
  unfold Message.from_buffer at h
  cases h1 : read_u64 b with
  | ok p1 =>
    obtain ⟨time, b1⟩ := p1
    rw [h1] at h
    simp only [ebind_ok] at h
    cases h2 : read_str b1 with
    | ok p2 =>
      obtain ⟨tid, b2⟩ := p2
      rw [h2] at h
      simp only [ebind_ok] at h
      cases h3 : read_str b2 with
      | ok p3 =>
        obtain ⟨fn, b3⟩ := p3
        rw [h3] at h
        simp only [ebind_ok] at h
        cases h4 : read_u32 b3 with
        | ok p4 =>
          obtain ⟨line, b4⟩ := p4
          rw [h4] at h
          simp only [ebind_ok] at h
          cases h5 : MsgPayload.from_buffer b4 with
          | ok p5 =>
            obtain ⟨payload, b5⟩ := p5
            rw [h5] at h
            simp only [ebind_ok, Except.ok.injEq, Prod.mk.injEq] at h
            rw [← h.2]
            exact ((((payload_from_buffer_suffix h5).trans
              (read_u32_suffix h4)).trans (read_str_suffix h3)).trans
              (read_str_suffix h2)).trans (read_u64_suffix h1)
          | error e =>
            rw [h5] at h
            simp at h
        | error e =>
          rw [h4] at h
          simp at h
      | error e =>
        rw [h3] at h
        simp at h
    | error e =>
      rw [h2] at h
      simp at h
  | error e =>
    rw [h1] at h
    simp at h

end RdbgView

/-- C3: decoding is total and in-bounds.  Decoding is a total function into
`Except` by construction; this theorem records the three substantial
parts: (1) every successful `Message::from_buffer` run leaves a suffix of
the input buffer, i.e. every byte consumed came from the buffer and every
length field was checked against the remaining bytes before being used
(the only access path is `as_slice`, which errors with `CorruptMsg`
whenever fewer than `len` bytes remain); (2) a payload tag byte that is
neither 1 nor 2 is rejected as `CorruptMsg`; (3) a `Values` payload whose
declared pair count exceeds the remaining bytes (here: any positive
declared count with no bytes after it) yields `CorruptMsg`. -/
theorem c3_decode_total_in_bounds :
    (∀ b m rest, RdbgView.Message.from_buffer b = .ok (m, rest) → rest <:+ b) ∧
    (∀ tag rest, tag < 256 → tag ≠ 1 → tag ≠ 2 →
      RdbgView.MsgPayload.from_buffer (tag :: rest) = .error .CorruptMsg) ∧
    (∀ n, 0 < n → n < 2 ^ 32 →
      RdbgView.MsgPayload.from_buffer (2 :: Wire.u32be n) = .error .CorruptMsg) := by
  refine ⟨fun b m rest h => RdbgView.message_from_buffer_suffix h, ?_, ?_⟩
  · intro tag rest h256 h1 h2
    unfold RdbgView.MsgPayload.from_buffer
    rw [RdbgView.read_u8_cons]
    simp only [ebind_ok, Nat.mod_eq_of_lt h256]
  · intro n hn h32
    unfold RdbgView.MsgPayload.from_buffer
    rw [RdbgView.read_u8_cons]
    simp only [ebind_ok]
    rw [show Wire.u32be n = Wire.u32be n ++ [] from (List.append_nil _).symm,
      RdbgView.read_u32_append]
    simp only [ebind_ok, Nat.mod_eq_of_lt h32]
    obtain ⟨k, rfl⟩ : ∃ k, n = k + 1 := ⟨n - 1, by omega⟩
    unfold RdbgView.read_values
    rw [show RdbgView.read_str [] =
      (.error .CorruptMsg : Except RdbgView.Error (List Nat × List Nat)) from rfl]
    simp

/-- C3 witness: the suffix property at a concrete successfully decoded
buffer, tag byte 3 rejected, and declared pair count 1 with no bytes
after it rejected. -/
theorem c3_witness :
    ([] : List Nat) <:+
        ((Rdbg.Message.new 5 [49] [97] 7 (.Message [104, 105])).drop 4) ∧
    RdbgView.MsgPayload.from_buffer [3] = .error .CorruptMsg ∧
    RdbgView.MsgPayload.from_buffer (2 :: Wire.u32be 1) = .error .CorruptMsg :=
  ⟨c3_decode_total_in_bounds.1 _ ⟨5, [49], [97], 7, .Message [104, 105]⟩ [] rfl,
   c3_decode_total_in_bounds.2.1 3 [] (by decide) (by decide) (by decide),
   c3_decode_total_in_bounds.2.2 1 (by decide) (by decide)⟩

/-! ## Decoder extension: a successful parse is unaffected by trailing bytes -/

namespace RdbgView

theorem as_slice_extend {len : Nat} {b s r e : List Nat}
    (h : as_slice len b = .ok (s, r)) :
    as_slice len (b ++ e) = .ok (s, r ++ e) := by
  unfold as_slice at h ⊢
  split at h
  · rename_i hle
    simp only [Except.ok.injEq, Prod.mk.injEq] at h
    rw [if_pos (by simp; omega)]
    rw [List.take_append_of_le_length hle, List.drop_append_of_le_length hle,
      h.1, h.2]
  · simp at h

theorem read_u8_extend {b : List Nat} {v : Nat} {r e : List Nat}
    (h : read_u8 b = .ok (v, r)) : read_u8 (b ++ e) = .ok (v, r ++ e) := by
  unfold read_u8 at h ⊢
  cases hs : as_slice 1 b with
  | ok p =>
    obtain ⟨s1, r1⟩ := p
    rw [hs] at h
    simp only [ebind_ok, Except.ok.injEq, Prod.mk.injEq] at h
    rw [as_slice_extend hs]
    simp [h.1, h.2]
  | error er =>
    rw [hs] at h
    simp at h

theorem read_u32_extend {b : List Nat} {v : Nat} {r e : List Nat}
    (h : read_u32 b = .ok (v, r)) : read_u32 (b ++ e) = .ok (v, r ++ e) := by
  unfold read_u32 at h ⊢
  cases hs : as_slice 4 b with
  | ok p =>
    obtain ⟨s1, r1⟩ := p
    rw [hs] at h
    simp only [ebind_ok, Except.ok.injEq, Prod.mk.injEq] at h
    rw [as_slice_extend hs]
    simp [h.1, h.2]
  | error er =>
    rw [hs] at h
    simp at h

theorem read_u64_extend {b : List Nat} {v : Nat} {r e : List Nat}
    (h : read_u64 b = .ok (v, r)) : read_u64 (b ++ e) = .ok (v, r ++ e) := by
  unfold read_u64 at h ⊢
  cases hs : as_slice 8 b with
  | ok p =>
    obtain ⟨s1, r1⟩ := p
    rw [hs] at h
    simp only [ebind_ok, Except.ok.injEq, Prod.mk.injEq] at h
    rw [as_slice_extend hs]
    simp [h.1, h.2]
  | error er =>
    rw [hs] at h
    simp at h

theorem read_str_extend {b s r e : List Nat}
    (h : read_str b = .ok (s, r)) : read_str (b ++ e) = .ok (s, r ++ e) := by
  unfold read_str at h ⊢
  cases h32 : read_u32 b with
  | ok p =>
    obtain ⟨len, b1⟩ := p
    rw [h32] at h
    simp only [ebind_ok] at h
    cases hs : as_slice len b1 with
    | ok q =>
      obtain ⟨s1, r1⟩ := q
      rw [hs] at h
      simp only [ebind_ok] at h
      rw [read_u32_extend h32]
      simp only [ebind_ok]
      rw [as_slice_extend hs]
      simp only [ebind_ok]
      split at h
      · rename_i hu
        simp only [Except.ok.injEq, Prod.mk.injEq] at h
        rw [if_pos hu]
        simp [h.1, h.2]
      · simp at h
    | error er =>
      rw [hs] at h
      simp at h
  | error er =>
    rw [h32] at h
    simp at h

theorem read_values_extend {n : Nat} {b : List Nat}
    {vs : List (List Nat × List Nat)} {r e : List Nat}
    (h : read_values n b = .ok (vs, r)) :
    read_values n (b ++ e) = .ok (vs, r ++ e) := by
  induction n generalizing b vs r with
  | zero =>
    unfold read_values at h ⊢
    simp only [Except.ok.injEq, Prod.mk.injEq] at h
    simp [h.1, h.2]
  | succ n ih =>
    unfold read_values at h ⊢
    cases h1 : read_str b with
    | ok p =>
      obtain ⟨name, b1⟩ := p
      rw [h1] at h
      simp only [ebind_ok] at h
      cases h2 : read_str b1 with
      | ok q =>
        obtain ⟨val, b2⟩ := q
        rw [h2] at h
        simp only [ebind_ok] at h
        cases h3 : read_values n b2 with
        | ok w =>
          obtain ⟨rest, b3⟩ := w
          rw [h3] at h
          simp only [ebind_ok, Except.ok.injEq, Prod.mk.injEq] at h
          rw [read_str_extend h1]
          simp only [ebind_ok]
          rw [read_str_extend h2]
          simp only [ebind_ok]
          rw [ih h3]
          simp [h.1, h.2]
        | error er =>
          rw [h3] at h
          simp at h
      | error er =>
        rw [h2] at h
        simp at h
    | error er =>
      rw [h1] at h
      simp at h

theorem payload_from_buffer_extend {b : List Nat} {p : MsgPayload} {r e : List Nat}
    (h : MsgPayload.from_buffer b = .ok (p, r)) :
    MsgPayload.from_buffer (b ++ e) = .ok (p, r ++ e) := by
  unfold MsgPayload.from_buffer at h ⊢
  cases h8 : read_u8 b with
  | ok q =>
    obtain ⟨tag, b1⟩ := q
    rw [h8] at h
    simp only [ebind_ok] at h
    rw [read_u8_extend h8]
    simp only [ebind_ok]
    match tag with
    | 0 => simp at h
    | 1 =>
      cases h1 : read_str b1 with
      | ok w =>
        obtain ⟨s, b2⟩ := w
        rw [h1] at h
        simp only [ebind_ok, Except.ok.injEq, Prod.mk.injEq] at h
        rw [read_str_extend h1]
        simp [h.1, h.2]
      | error er =>
        rw [h1] at h
        simp at h
    | 2 =>
      cases h1 : read_u32 b1 with
      | ok w =>
        obtain ⟨len, b2⟩ := w
        rw [h1] at h
        simp only [ebind_ok] at h
        cases h2 : read_values len b2 with
        | ok w2 =>
          obtain ⟨vs, b3⟩ := w2
          rw [h2] at h
          simp only [ebind_ok, Except.ok.injEq, Prod.mk.injEq] at h
          rw [read_u32_extend h1]
          simp only [ebind_ok]
          rw [read_values_extend h2]
          simp [h.1, h.2]
        | error er =>
          rw [h2] at h
          simp at h
      | error er =>
        rw [h1] at h
        simp at h
    | (n + 3) => simp at h
  | error er =>
    rw [h8] at h
    simp at h

theorem message_from_buffer_extend {b : List Nat} {m : Message} {r e : List Nat}
    (h : Message.from_buffer b = .ok (m, r)) :
    Message.from_buffer (b ++ e) = .ok (m, r ++ e) := by
  unfold Message.from_buffer at h ⊢
  cases h1 : read_u64 b with
  | ok p1 =>
    obtain ⟨time, b1⟩ := p1
    rw [h1] at h
    simp only [ebind_ok] at h
    rw [read_u64_extend h1]
    simp only [ebind_ok]
    cases h2 : read_str b1 with
    | ok p2 =>
      obtain ⟨tid, b2⟩ := p2
      rw [h2] at h
      simp only [ebind_ok] at h
      rw [read_str_extend h2]
      simp only [ebind_ok]
      cases h3 : read_str b2 with
      | ok p3 =>
        obtain ⟨fn, b3⟩ := p3
        rw [h3] at h
        simp only [ebind_ok] at h
        rw [read_str_extend h3]
        simp only [ebind_ok]
        cases h4 : read_u32 b3 with
        | ok p4 =>
          obtain ⟨line, b4⟩ := p4
          rw [h4] at h
          simp only [ebind_ok] at h
          rw [read_u32_extend h4]
          simp only [ebind_ok]
          cases h5 : MsgPayload.from_buffer b4 with
          | ok p5 =>
            obtain ⟨payload, b5⟩ := p5
            rw [h5] at h
            simp only [ebind_ok, Except.ok.injEq, Prod.mk.injEq] at h
            rw [payload_from_buffer_extend h5]
            simp [h.1, h.2]
          | error er =>
            rw [h5] at h
            simp at h
        | error er =>
          rw [h4] at h
          simp at h
      | error er =>
        rw [h3] at h
        simp at h
    | error er =>
      rw [h2] at h
      simp at h
  | error er =>
    rw [h1] at h
    simp at h

end RdbgView

/-- C9: decoding does not require the buffer to be fully consumed.  For
every buffer whose fields parse completely, appending any extra trailing
bytes still yields the same decoded message with the trailing bytes left
over and unexamined, and the iterator-level decode (which discards the
remainder, as `MsgIterator::next` does) returns the message rather than
`CorruptMsg` — a frame whose declared length exceeds what its fields need
is not detected as inconsistent. -/
theorem c9_trailing_bytes_ignored (body extra : List Nat) (m : RdbgView.Message)
    (h : RdbgView.Message.from_buffer body = .ok (m, [])) :
    RdbgView.Message.from_buffer (body ++ extra) = .ok (m, extra) ∧
    RdbgView.decode_frame (body ++ extra) = .ok m := by
  have hx := @RdbgView.message_from_buffer_extend body m [] extra h
  simp only [List.nil_append] at hx
  refine ⟨hx, ?_⟩
  unfold RdbgView.decode_frame
  rw [hx]
  rfl

/-- C9 witness: a concrete frame body with four junk bytes appended still
decodes to the same message, with the junk ignored. -/
theorem c9_witness :
    RdbgView.Message.from_buffer
        (((Rdbg.Message.new 5 [49] [97] 7 (.Message [104, 105])).drop 4) ++
          [222, 173, 190, 239]) =
      .ok (⟨5, [49], [97], 7, .Message [104, 105]⟩, [222, 173, 190, 239]) ∧
    RdbgView.decode_frame
        (((Rdbg.Message.new 5 [49] [97] 7 (.Message [104, 105])).drop 4) ++
          [222, 173, 190, 239]) =
      .ok ⟨5, [49], [97], 7, .Message [104, 105]⟩ :=
  c9_trailing_bytes_ignored _ [222, 173, 190, 239] _ rfl

/-- C7: when a freshly opened connection yields a handshake byte other
than 1, the pull returns the `BadVersion` error and the stream is not
retained as the connected stream (the iterator state stays `none`), so no
further reads happen on that connection — the result does not depend on
the bytes `tail` that the connection would have delivered next. -/
theorem c7_bad_version_no_further_reads (b : Nat) (tail : List Nat)
    (rest : List RdbgView.Attempt) (h256 : b < 256) (h1 : b ≠ 1) :
    RdbgView.mi_next none (RdbgView.Attempt.conn (b :: tail) :: rest) =
      some (none, .error .BadVersion) := by
  simp only [RdbgView.mi_next, RdbgView.next_disconnected, Nat.mod_eq_of_lt h256]
  rw [if_neg h1]

/-- C7 witness: handshake byte 2 with pending stream bytes behind it
yields `BadVersion` with no stream stored. -/
theorem c7_witness :
    RdbgView.mi_next none [RdbgView.Attempt.conn (2 :: [7, 7])] =
      some (none, .error .BadVersion) :=
  c7_bad_version_no_further_reads 2 [7, 7] [] (by decide) (by decide)

/-- C8: whenever a pull from the iterator returns an error (`BadVersion`,
`BadUtf8` or `CorruptMsg`), the new iterator state holds no stream
(`Disconnected`), so the next pull enters the reconnect loop instead of
reading further from the faulted connection. -/
theorem c8_error_leaves_disconnected (st : Option (List Nat))
    (atts : List RdbgView.Attempt) (st' : Option (List Nat))
    (e : RdbgView.Error)
    (h : RdbgView.mi_next st atts = some (st', .error e)) : st' = none := by
  cases st with
  | some bytes =>
    simp only [RdbgView.mi_next, Option.some.injEq] at h
    simp only [RdbgView.next_connected] at h
    split at h
    · split at h
      · split at h
        · simp at h
        · simp only [Prod.mk.injEq] at h
          exact h.1.symm
      · simp at h
    · simp at h
  | none =>
    induction atts with
    | nil => simp [RdbgView.mi_next, RdbgView.next_disconnected] at h
    | cons a rest ih =>
      cases a with
      | fail =>
        simp only [RdbgView.mi_next, RdbgView.next_disconnected] at h ih
        exact ih h
      | conn bytes =>
        cases bytes with
        | nil =>
          simp only [RdbgView.mi_next, RdbgView.next_disconnected] at h ih
          exact ih h
        | cons b tail =>
          simp only [RdbgView.mi_next, RdbgView.next_disconnected] at h
          split at h
          · simp at h
          · simp only [Option.some.injEq, Prod.mk.injEq] at h
            exact h.1.symm

/-- C8 witness: a connected stream carrying a frame with an unknown
payload tag produces an error, and the theorem yields the disconnected
state (the corrupt frame here is length 1 with body the lone tag byte 3,
which fails as `CorruptMsg`). -/
theorem c8_witness : (none : Option (List Nat)) = none :=
  c8_error_leaves_disconnected (some [0, 0, 0, 1, 3]) [] none .CorruptMsg rfl

/-- Once the registry holds a manager, every later request returns that
manager and creates nothing. -/
theorem run_ports_some (ps : List Nat) (p : Nat) :
    Rdbg.run_ports ps (some p) = (List.replicate ps.length p, some p) := by
  induction ps with
  | nil => rfl
  | cons q ps ih => simp [Rdbg.run_ports, Rdbg.from_port, ih, List.replicate]

/-- C4 counterexample: two requests with distinct ports (13580 then 14000)
leave the registry holding a single manager, the one for 13580, and hand
the 14000 caller that same manager — there is not one Transport Manager
per distinct requested port value. -/
theorem c4_counterexample :
    Rdbg.run_ports [13580, 14000] none = ([13580, 13580], some 13580) ∧
    (13580 : Nat) ≠ 14000 :=
  ⟨rfl, by decide⟩

/-- C4 (amended): within one process at most one Transport Manager ever
exists — the one created, under the single initialization lock, by the
first request — and every request, whatever port value it passes,
returns a handle sharing that first manager; the first caller's port
choice is final. -/
theorem c4_single_manager_first_caller_wins (p : Nat) (ps : List Nat) :
    (Rdbg.run_ports (p :: ps) none).1 = List.replicate (ps.length + 1) p ∧
    (Rdbg.run_ports (p :: ps) none).2 = some p := by
  simp [Rdbg.run_ports, Rdbg.from_port, run_ports_some, List.replicate]

/-- `str::split` always yields at least one piece. -/
theorem splitParens_ne_nil (s : List Char) : Rdbg.splitParens s ≠ [] := by
  induction s with
  | nil => simp [Rdbg.splitParens]
  | cons c rest ih =>
    unfold Rdbg.splitParens
    split
    · simp
    · cases hs : Rdbg.splitParens rest with
      | nil => exact absurd hs ih
      | cons p ps => simp

/-- The first piece of the paren split is the text before the first
parenthesis. -/
theorem splitParens_head (s : List Char) :
    (Rdbg.splitParens s).headD [] = s.takeWhile (fun c => !Rdbg.isParen c) := by
  induction s with
  | nil => rfl
  | cons c rest ih =>
    unfold Rdbg.splitParens
    by_cases hc : Rdbg.isParen c = true
    · rw [if_pos hc]
      simp [List.takeWhile_cons, hc]
    · rw [if_neg hc]
      cases hs : Rdbg.splitParens rest with
      | nil => exact absurd hs (splitParens_ne_nil rest)
      | cons p ps =>
        rw [hs] at ih
        simp only [List.headD_cons] at ih
        simp [List.takeWhile_cons, Bool.not_eq_true] at hc
        simp [List.takeWhile_cons, hc, ih]

/-- Splitting a string that starts with a separator-free prefix followed
by a separator: the prefix becomes the first piece. -/
theorem splitParens_append_sep (pre : List Char) (c : Char) (rest : List Char)
    (hpre : ∀ x ∈ pre, Rdbg.isParen x = false) (hc : Rdbg.isParen c = true) :
    Rdbg.splitParens (pre ++ c :: rest) = pre :: Rdbg.splitParens rest := by
  induction pre with
  | nil =>
    simp only [List.nil_append]
    rw [Rdbg.splitParens.eq_2, if_pos hc]
  | cons a pre ih =>
    have ha : Rdbg.isParen a = false := hpre a (by simp)
    have hp : ∀ x ∈ pre, Rdbg.isParen x = false := fun x hx => hpre x (by simp [hx])
    simp only [List.cons_append]
    rw [Rdbg.splitParens.eq_2, if_neg (by simp [ha]), ih hp]

/-- C10: the thread id sent on the wire is the normalized `Debug`
rendering of the thread id.  (1) For every input of the exact shape
`ThreadId(X)` with `X` containing no parentheses, `parse_thread_id`
returns `X` alone; (2) for every input whose text before the first
parenthesis is not exactly `ThreadId`, it returns the input unchanged. -/
theorem c10_parse_thread_id_normalizes :
    (∀ X : List Char, (∀ c ∈ X, Rdbg.isParen c = false) →
      Rdbg.parse_thread_id (Rdbg.THREAD_ID_PREFIX ++ '(' :: (X ++ [')'])) = X) ∧
    (∀ s : List Char,
      s.takeWhile (fun c => !Rdbg.isParen c) ≠ Rdbg.THREAD_ID_PREFIX →
      Rdbg.parse_thread_id s = s) := by
  constructor
  · intro X hX
    unfold Rdbg.parse_thread_id
    rw [splitParens_append_sep Rdbg.THREAD_ID_PREFIX '(' (X ++ [')'])
      (by decide) (by decide)]
    rw [show X ++ [')'] = X ++ ')' :: ([] : List Char) from rfl,
      splitParens_append_sep X ')' [] hX (by decide)]
    simp [Rdbg.splitParens]
  · intro s hs
    have hne := splitParens_ne_nil s
    obtain ⟨p0, ps, hsp⟩ := List.exists_cons_of_ne_nil hne
    have hp0 : p0 = s.takeWhile (fun c => !Rdbg.isParen c) := by
      have hh := splitParens_head s
      rw [hsp] at hh
      simpa using hh
    have hne2 : ¬(p0 = Rdbg.THREAD_ID_PREFIX) := by
      rw [hp0]
      exact hs
    unfold Rdbg.parse_thread_id
    rw [hsp]
    simp [hne2]

/-- C10 witness: `ThreadId(42)` normalizes to `42`, and `Thread(1)` (whose
text before the first parenthesis is `Thread`) is returned unchanged —
the two unit tests of src/rdbg/src/lib.rs. -/
theorem c10_witness :
    Rdbg.parse_thread_id
        (Rdbg.THREAD_ID_PREFIX ++ '(' :: (['4', '2'] ++ [')'])) = ['4', '2'] ∧
    Rdbg.parse_thread_id "Thread(1)".data = "Thread(1)".data :=
  ⟨c10_parse_thread_id_normalizes.1 ['4', '2'] (by decide),
   c10_parse_thread_id_normalizes.2 "Thread(1)".data (by decide)⟩

/-- Conservation of frames through one connection: the frames present at
entry (pending slot, then the channel events in order) are exactly the
frames written, then the frame still pending, then the frames of the
undelivered events — in that order.  No frame is dropped or reordered. -/
theorem run_conn_conservation (c : Option (List Nat)) (evs : List Rdbg.Ev)
    (ws : List Bool) :
    Rdbg.optMsgs c ++ Rdbg.evMsgs evs =
      Rdbg.outWrites (Rdbg.run_conn c evs ws).2.2 ++
        Rdbg.optMsgs (Rdbg.run_conn c evs ws).1 ++
        Rdbg.evMsgs (Rdbg.run_conn c evs ws).2.1 := by
  induction c, evs, ws using Rdbg.run_conn.induct with
  | case1 m evs =>
    simp [Rdbg.run_conn, Rdbg.optMsgs, Rdbg.outWrites]
  | case2 m evs ws ih =>
    simp only [Rdbg.run_conn, if_true]
    simp only [Rdbg.outWrites, List.filterMap_cons] at ih ⊢
    simp only [Rdbg.optMsgs, List.nil_append] at ih
    simp [Rdbg.optMsgs, ← ih]
  | case3 m evs w ws hw =>
    simp only [Bool.not_eq_true] at hw
    simp [Rdbg.run_conn, hw, Rdbg.optMsgs, Rdbg.outWrites]
  | case4 ws =>
    simp [Rdbg.run_conn, Rdbg.optMsgs, Rdbg.outWrites, Rdbg.evMsgs]
  | case5 m evs ws ih =>
    simp only [Rdbg.run_conn]
    simp only [Rdbg.optMsgs, List.nil_append, Rdbg.evMsgs, List.filterMap_cons] at ih ⊢
    exact ih
  | case6 evs ws ih =>
    simp only [Rdbg.run_conn]
    simp only [Rdbg.optMsgs, List.nil_append, Rdbg.evMsgs, List.filterMap_cons,
      Rdbg.outWrites] at ih ⊢
    exact ih

/-- C5: the pending-frame retry policy of `process_stream`.
(1) A write that fails leaves that exact frame pending, with nothing
written and no event consumed past it; (2) on any connection entered with
a pending frame, if anything at all is written after the handshake byte,
the first frame written is the pending frame itself, byte-for-byte the
same list; (3) frames are conserved in order: the pending frame and every
frame accepted into the channel is either written (in FIFO order), still
pending, or still queued — never silently dropped. -/
theorem c5_pending_frame_retry :
    (∀ (m : List Nat) (evs : List Rdbg.Ev) (ws : List Bool),
      Rdbg.run_conn (some m) evs (false :: ws) = (some m, evs, [])) ∧
    (∀ (hs : Bool) (m : List Nat) (evs : List Rdbg.Ev) (ws : List Bool),
      (Rdbg.process_stream hs (some m) evs ws).2.2 = [] ∨
      ((Rdbg.process_stream hs (some m) evs ws).2.2).head? =
        some (.wrote m)) ∧
    (∀ (c : Option (List Nat)) (evs : List Rdbg.Ev) (ws : List Bool),
      Rdbg.optMsgs c ++ Rdbg.evMsgs evs =
        Rdbg.outWrites (Rdbg.run_conn c evs ws).2.2 ++
          Rdbg.optMsgs (Rdbg.run_conn c evs ws).1 ++
          Rdbg.evMsgs (Rdbg.run_conn c evs ws).2.1) := by
  refine ⟨?_, ?_, run_conn_conservation⟩
  · intro m evs ws
    simp [Rdbg.run_conn]
  · intro hs m evs ws
    cases hs with
    | false => exact Or.inl rfl
    | true =>
      cases ws with
      | nil =>
        left
        simp [Rdbg.process_stream, Rdbg.run_conn]
      | cons w ws =>
        cases w with
        | false =>
          left
          simp [Rdbg.process_stream, Rdbg.run_conn]
        | true =>
          right
          simp [Rdbg.process_stream, Rdbg.run_conn]

/-- If the events of a connection are some flush-free prefix followed by a
flush marker, and the connection's trace reaches a flush signal, then the
frames written before the first flush signal are exactly the pending
frame followed by every frame enqueued before the marker. -/
theorem flush_after_writes_aux (c : Option (List Nat)) (evs : List Rdbg.Ev)
    (ws : List Bool) :
    ∀ evs1 evs2, evs = evs1 ++ Rdbg.Ev.Flush :: evs2 →
    Rdbg.Ev.Flush ∉ evs1 →
    ((Rdbg.run_conn c evs ws).2.2).takeWhile Rdbg.isWrote ≠
      (Rdbg.run_conn c evs ws).2.2 →
    Rdbg.outWrites (((Rdbg.run_conn c evs ws).2.2).takeWhile Rdbg.isWrote) =
      Rdbg.optMsgs c ++ Rdbg.evMsgs evs1 := by
  induction c, evs, ws using Rdbg.run_conn.induct with
  | case1 m evs =>
    intro evs1 evs2 he hf htr
    simp [Rdbg.run_conn] at htr
  | case2 m evs ws ih =>
    intro evs1 evs2 he hf htr
    simp only [Rdbg.run_conn, if_true] at htr ⊢
    simp only [List.takeWhile_cons, Rdbg.isWrote, if_true] at htr ⊢
    have htr2 : ((Rdbg.run_conn none evs ws).2.2).takeWhile Rdbg.isWrote ≠
        (Rdbg.run_conn none evs ws).2.2 := by
      intro hh
      exact htr (by rw [hh])
    have hr := ih evs1 evs2 he hf htr2
    simp only [Rdbg.optMsgs, List.nil_append] at hr
    simp only [Rdbg.outWrites, List.filterMap_cons] at hr ⊢
    simp [Rdbg.optMsgs, hr]
  | case3 m evs w ws hw =>
    intro evs1 evs2 he hf htr
    simp only [Bool.not_eq_true] at hw
    simp [Rdbg.run_conn, hw] at htr
  | case4 ws =>
    intro evs1 evs2 he hf htr
    simp at he
  | case5 m evs ws ih =>
    intro evs1 evs2 he hf htr
    cases evs1 with
    | nil => simp at he
    | cons e evs1 =>
      simp only [List.cons_append, List.cons.injEq] at he
      obtain ⟨he1, he2⟩ := he
      subst he1
      have hf2 : Rdbg.Ev.Flush ∉ evs1 := by
        intro hx
        exact hf (by simp [hx])
      simp only [Rdbg.run_conn] at htr ⊢
      have := ih evs1 evs2 he2 hf2 htr
      simp only [Rdbg.optMsgs, List.nil_append, List.cons_append] at this ⊢
      simp only [Rdbg.evMsgs, List.filterMap_cons] at this ⊢
      exact this
  | case6 evs ws ih =>
    intro evs1 evs2 he hf htr
    cases evs1 with
    | cons e evs1 =>
      simp only [List.cons_append, List.cons.injEq] at he
      exact absurd (by simp [← he.1]) hf
    | nil =>
      simp only [Rdbg.run_conn]
      simp only [List.takeWhile_cons, Rdbg.isWrote]
      simp [Rdbg.outWrites, Rdbg.optMsgs, Rdbg.evMsgs]

/-- C6: the flush rendezvous.  `Flushed::flush_and_wait` blocks the caller
on a condition variable that only the manager's `flushed()` call (the
`flushed` trace element here) releases, and the marker travels through
the same FIFO channel as the messages.  (1) If the connection's trace
reaches a flush signal, then the frames written before the first flush
signal are exactly the frames enqueued strictly before the flush marker
(pending frame first) — the marker is processed only after every prior
message has been fully written to the active connection.  (2) If no
connection ever completes its handshake (no viewer ever attached), the
manager produces no trace at all — in particular no flush signal, so
`flush()` never returns. -/
theorem c6_flush_blocks_until_prior_writes :
    (∀ (c : Option (List Nat)) (evs1 evs2 : List Rdbg.Ev) (ws : List Bool),
      Rdbg.Ev.Flush ∉ evs1 →
      ((Rdbg.run_conn c (evs1 ++ Rdbg.Ev.Flush :: evs2) ws).2.2).takeWhile
          Rdbg.isWrote ≠
        (Rdbg.run_conn c (evs1 ++ Rdbg.Ev.Flush :: evs2) ws).2.2 →
      Rdbg.outWrites
          (((Rdbg.run_conn c (evs1 ++ Rdbg.Ev.Flush :: evs2) ws).2.2).takeWhile
            Rdbg.isWrote) =
        Rdbg.optMsgs c ++ Rdbg.evMsgs evs1) ∧
    (∀ (c : Option (List Nat)) (evs : List Rdbg.Ev) (cns : List Rdbg.Conn),
      (∀ cn ∈ cns, cn.hs = false) →
      (Rdbg.run_manager c evs cns).2.2 = []) := by
  constructor
  · intro c evs1 evs2 ws hf htr
    exact flush_after_writes_aux c _ ws evs1 evs2 rfl hf htr
  · intro c evs cns h
    induction cns generalizing c evs with
    | nil => rfl
    | cons cn cns ih =>
      have h0 : cn.hs = false := h cn (by simp)
      have hrest : ∀ x ∈ cns, x.hs = false := fun x hx => h x (by simp [hx])
      simp [Rdbg.run_manager, Rdbg.process_stream, h0, ih c evs hrest]

/-- C6 witness: one message then a flush marker, one accepted connection
with one successful write: the frames written before the flush signal are
exactly the one message enqueued before the marker; and a manager whose
only connection never completes the handshake produces no trace. -/
theorem c6_witness :
    Rdbg.outWrites
        (((Rdbg.run_conn none
            ([Rdbg.Ev.NewMessage [7]] ++ Rdbg.Ev.Flush :: []) [true]).2.2).takeWhile
          Rdbg.isWrote) =
      Rdbg.optMsgs none ++ Rdbg.evMsgs [Rdbg.Ev.NewMessage [7]] ∧
    (Rdbg.run_manager none [Rdbg.Ev.NewMessage [7]]
        [(⟨false, [true]⟩ : Rdbg.Conn)]).2.2 = [] :=
  ⟨c6_flush_blocks_until_prior_writes.1 none [Rdbg.Ev.NewMessage [7]] [] [true]
      (by simp)
      (by simp [Rdbg.run_conn, Rdbg.isWrote]),
   c6_flush_blocks_until_prior_writes.2 none [Rdbg.Ev.NewMessage [7]]
      [(⟨false, [true]⟩ : Rdbg.Conn)] (by simp)⟩
